import Mathlib

/-!
# Verification of the FrameNextEditor editing pipeline

A shallow embedding, in Lean 4, of the pure planning logic of the
FrameNextEditor video editor: the filter-graph builders for structural
insert (`electron/video/insert.js`), speed change (`electron/video/speed.js`),
audio replacement (`electron/video/audio.js`), the stage-selection and
cleanup logic of the pipeline orchestrator (`electron/video/pipeline.js`,
`electron/utils/fileUtils.js`), frame-rate extraction
(`electron/utils/videoUtils.js`) and the file-picker state
(`electron/handlers/fileHandlers.js`).

JavaScript numbers are modelled as rationals (`ℚ`); the constants involved
(0.1 thresholds, user-supplied times) are exact in both models, so the
branch structure is preserved.  A missing / `NaN` probed duration is
modelled as `0` (both are falsy in the JS `||` fallbacks that consume
them).
-/

namespace FrameNext

/-- Trim info handed to the insert builder (`pipeline.js` builds it as
`{start: features.trim.start, end: features.trim.end}`, either field may be
`undefined`; `insert.js` reads it with `trimInfo?.start ?? 0` and
`trimInfo?.end ?? null`). -/
structure TrimInfo where
  start : Option ℚ
  stop : Option ℚ
deriving Repr, DecidableEq

/-- One video segment of the insert filter graph: which input it comes from
(0 = base video, 1 = insert clip) and the `trim=start=..:end=..` window
applied to it.  The paired audio segment (`atrim` with the same window, or
`anullsrc` cut to the same length) always has the same duration, so segment
durations of the video track determine the concatenated output duration. -/
structure VideoSeg where
  input : Nat
  trimStart : ℚ
  trimEnd : ℚ
deriving Repr, DecidableEq

/-- Duration contributed by one segment. -/
def VideoSeg.dur (s : VideoSeg) : ℚ := s.trimEnd - s.trimStart

/-- Working range and clamped relative insert position, `insert.js` lines
26-42: `hasTrim = trimEnd !== null && trimEnd > trimStart`; under a trim the
window is clamped into `[0, mainDur]` and the position into the window,
otherwise the window is the whole base and the position is clamped to
`mainDur`. -/
structure WorkingRange where
  ws : ℚ
  we : ℚ
  relPos : ℚ
deriving Repr, DecidableEq

def insertWorkingRange (mainDur position : ℚ) (trimInfo : Option TrimInfo) :
    WorkingRange :=
  let trimStart := (trimInfo.bind TrimInfo.start).getD 0
  match trimInfo.bind TrimInfo.stop with
  | some te =>
      if te > trimStart then
        let ws := max 0 (min trimStart mainDur)
        let we := max ws (min te mainDur)
        ⟨ws, we, max 0 (min position (we - ws))⟩
      else ⟨0, mainDur, min position mainDur⟩
  | none => ⟨0, mainDur, min position mainDur⟩

/-- Length of the working range (trim window when present, else the whole
base duration) — the `workingRangeLength` of the specification. -/
def workingRangeLen (mainDur : ℚ) (trimInfo : Option TrimInfo) : ℚ :=
  (insertWorkingRange mainDur 0 trimInfo).we - (insertWorkingRange mainDur 0 trimInfo).ws

/-- `insert.js` line 23: `const insDur = Number(insMeta.format.duration) || duration;`
— a missing/zero probed duration of the insert clip falls back to the
requested duration. -/
def insEffectiveDur (insProbedDur duration : ℚ) : ℚ :=
  if insProbedDur = 0 then duration else insProbedDur

/-- Sequential-mode segment plan, `insert.js` lines 136-177.  The before
segment is emitted only when `safePos > 0.1`, the after segment only when
the rest of the working range exceeds `0.1`. -/
def sequentialSegments (mainDur insProbedDur position duration : ℚ)
    (trimInfo : Option TrimInfo) : List VideoSeg :=
  let wr := insertWorkingRange mainDur position trimInfo
  let safePos := wr.relPos
  let safeDur := min duration (insEffectiveDur insProbedDur duration)
  let absInsertPos := wr.ws + safePos
  (if safePos > 1/10 then [⟨0, wr.ws, absInsertPos⟩] else []) ++
  [⟨1, 0, safeDur⟩] ++
  (if wr.we - absInsertPos > 1/10 then [⟨0, absInsertPos, wr.we⟩] else [])

/-- Overlapping-mode segment plan, `insert.js` lines 54-108.  The insert
replaces base content: the third segment resumes the base at
`absInsertPos + insertDuration` (the replaced sub-range is skipped), and the
inserted length is clamped so it cannot run past the working range. -/
def overlappingSegments (mainDur insProbedDur position duration : ℚ)
    (trimInfo : Option TrimInfo) : List VideoSeg :=
  let wr := insertWorkingRange mainDur position trimInfo
  let safePos := wr.relPos
  let safeDur := min duration (insEffectiveDur insProbedDur duration)
  let absInsertPos := wr.ws + safePos
  let baseDuration := wr.we - wr.ws
  let insertStartTime := absInsertPos - wr.ws
  let insertEndTime := min (insertStartTime + safeDur) baseDuration
  let insertedDur := insertEndTime - insertStartTime
  let remainingDuration := baseDuration - insertEndTime
  let baseResumePos := absInsertPos + insertedDur
  (if insertStartTime > 1/10 then [⟨0, wr.ws, absInsertPos⟩] else []) ++
  [⟨1, 0, insertedDur⟩] ++
  (if remainingDuration > 1/10 then [⟨0, baseResumePos, wr.we⟩] else [])

/-- Total duration of a concatenated segment plan. -/
def segmentsDuration (segs : List VideoSeg) : ℚ := (segs.map VideoSeg.dur).sum

/-- `insert.js` line 62: `insertEndTime = Math.min(insertStartTime + safeDur, baseDuration)`
(overlapping mode), with `insertStartTime` the clamped relative position. -/
def overlapInsertEnd (mainDur insProbedDur position duration : ℚ)
    (trimInfo : Option TrimInfo) : ℚ :=
  min ((insertWorkingRange mainDur position trimInfo).relPos
       + min duration (insEffectiveDur insProbedDur duration))
    (workingRangeLen mainDur trimInfo)

/-- The working-range bounds do not depend on the insert position. -/
theorem insertWorkingRange_bounds (mainDur position : ℚ)
    (trimInfo : Option TrimInfo) :
    (insertWorkingRange mainDur position trimInfo).ws
        = (insertWorkingRange mainDur 0 trimInfo).ws
    ∧ (insertWorkingRange mainDur position trimInfo).we
        = (insertWorkingRange mainDur 0 trimInfo).we := by
  unfold insertWorkingRange
  set o := trimInfo.bind TrimInfo.stop with ho
  clear_value o
  rcases o with _ | te
  · simp
  · simp only []
    split <;> simp

/-- Length of the working range as the difference of the bounds computed at
any position. -/
theorem workingRangeLen_eq (mainDur position : ℚ) (trimInfo : Option TrimInfo) :
    workingRangeLen mainDur trimInfo
      = (insertWorkingRange mainDur position trimInfo).we
        - (insertWorkingRange mainDur position trimInfo).ws := by
  have h := insertWorkingRange_bounds mainDur position trimInfo
  unfold workingRangeLen
  rw [h.1, h.2]

/-- A position already inside `[0, workingRangeLength]` is left unchanged by
the clamping of `insert.js` lines 37-39. -/
theorem insertWorkingRange_relPos (mainDur position : ℚ)
    (trimInfo : Option TrimInfo) (h0 : 0 ≤ position)
    (h1 : position ≤ workingRangeLen mainDur trimInfo) :
    (insertWorkingRange mainDur position trimInfo).relPos = position := by
  rw [workingRangeLen_eq mainDur position trimInfo] at h1
  unfold insertWorkingRange at h1 ⊢
  set o := trimInfo.bind TrimInfo.stop with ho
  clear_value o
  rcases o with _ | te
  · simp at h1 ⊢
    exact h1
  · simp only [] at h1 ⊢
    split at h1 <;> split <;> simp_all

/-- C1 counterexample: with base duration 10, insert clip probed at 5,
requested insert duration 2 and the valid position `1/20 ∈ [0, 10]`, the
sequential plan's total duration is `11.95`, not
`workingRangeLength + insertDuration = 12`: the code drops the "before"
segment whenever its length is `≤ 0.1`, not only when it is empty. -/
theorem sequential_duration_cex :
    (0 ≤ (1/20 : ℚ) ∧ (1/20 : ℚ) ≤ workingRangeLen 10 none) ∧
    segmentsDuration (sequentialSegments 10 5 (1/20) 2 none)
      ≠ workingRangeLen 10 none + min (2 : ℚ) 5 := by
  norm_num [segmentsDuration, sequentialSegments, insertWorkingRange,
    workingRangeLen, insEffectiveDur, VideoSeg.dur]

/-- C1 (amended): for a valid position in `[0, workingRangeLength]` that is
not strictly inside one of the two `0.1`-second boundary bands — that is,
the position is `0` or exceeds `0.1`, and it is at the end of the working
range or more than `0.1` before it — the sequential insert plan's total
output duration is exactly `workingRangeLength + insertDuration`, where
`insertDuration` is the requested duration clamped to the insert clip's
probed duration. -/
theorem sequential_insert_duration
    (mainDur insProbedDur position duration : ℚ) (trimInfo : Option TrimInfo)
    (hpos0 : 0 ≤ position)
    (hpos1 : position ≤ workingRangeLen mainDur trimInfo)
    (hlo : position = 0 ∨ 1/10 < position)
    (hhi : position = workingRangeLen mainDur trimInfo ∨
           1/10 < workingRangeLen mainDur trimInfo - position)
    (hprobe : 0 < insProbedDur) :
    segmentsDuration
        (sequentialSegments mainDur insProbedDur position duration trimInfo)
      = workingRangeLen mainDur trimInfo + min duration insProbedDur := by
  have hL := workingRangeLen_eq mainDur position trimInfo
  have hrel := insertWorkingRange_relPos mainDur position trimInfo hpos0 hpos1
  have hEff : insEffectiveDur insProbedDur duration = insProbedDur := by
    unfold insEffectiveDur
    rw [if_neg (ne_of_gt hprobe)]
  unfold sequentialSegments
  dsimp only
  rw [hrel, hEff]
  rw [hL] at hhi ⊢
  rcases hlo with hlo | hlo <;> rcases hhi with hhi | hhi
  · rw [hlo] at hhi ⊢
    rw [if_neg (by norm_num), if_neg (by linarith)]
    simp [segmentsDuration, VideoSeg.dur]
    linarith
  · rw [hlo] at hhi ⊢
    rw [if_neg (by norm_num), if_pos (by linarith)]
    simp [segmentsDuration, VideoSeg.dur]
    ring
  · rw [if_pos (by linarith), if_neg (by linarith)]
    simp [segmentsDuration, VideoSeg.dur]
    linarith
  · rw [if_pos (by linarith), if_pos (by linarith)]
    simp [segmentsDuration, VideoSeg.dur]
    ring

/-- Witness for the amended C1 theorem at base 10s, insert probed 5s,
position 3, requested duration 2, no trim: output is 10 + 2. -/
theorem sequential_insert_duration_witness :
    segmentsDuration (sequentialSegments 10 5 3 2 none)
      = workingRangeLen 10 none + min (2 : ℚ) 5 :=
  sequential_insert_duration 10 5 3 2 none (by norm_num)
    (by norm_num [workingRangeLen, insertWorkingRange])
    (Or.inr (by norm_num))
    (Or.inr (by norm_num [workingRangeLen, insertWorkingRange]))
    (by norm_num)

/-- C2 counterexample: base 10s, no trim, insert at position 0 with
requested duration 9.95 (insert clip probed at 20s, so the clamp keeps
9.95): the trailing 0.05s of the base is below the 0.1 threshold and is
dropped, so the overlapping output is 9.95, not
`workingRangeLength = 10` — the duration is not preserved for every
requested insert duration. -/
theorem overlapping_duration_cex :
    segmentsDuration (overlappingSegments 10 20 0 (199/20) none)
      ≠ workingRangeLen 10 none := by
  norm_num [segmentsDuration, overlappingSegments, insertWorkingRange,
    workingRangeLen, insEffectiveDur, VideoSeg.dur]

/-- C2 (amended): in overlapping mode, whenever the clamped position and the
remaining base length after the insert are each either zero or above the
`0.1` threshold, the plan's total duration is exactly `workingRangeLength`
(the insert is clamped internally so it cannot run past the working range);
moreover when base content remains after the insert, the resuming segment
trims the base starting at `workingStart + insertEndTime` — the replaced
sub-range of the base is skipped (dropped), not shifted. -/
theorem overlapping_insert_duration
    (mainDur insProbedDur position duration : ℚ) (trimInfo : Option TrimInfo)
    (hpos0 : 0 ≤ position)
    (hpos1 : position ≤ workingRangeLen mainDur trimInfo)
    (hlo : position = 0 ∨ 1/10 < position)
    (hrem : workingRangeLen mainDur trimInfo
              - overlapInsertEnd mainDur insProbedDur position duration trimInfo = 0
            ∨ 1/10 < workingRangeLen mainDur trimInfo
              - overlapInsertEnd mainDur insProbedDur position duration trimInfo) :
    segmentsDuration
        (overlappingSegments mainDur insProbedDur position duration trimInfo)
      = workingRangeLen mainDur trimInfo
    ∧ (1/10 < workingRangeLen mainDur trimInfo
          - overlapInsertEnd mainDur insProbedDur position duration trimInfo →
        (⟨0, (insertWorkingRange mainDur position trimInfo).ws
              + overlapInsertEnd mainDur insProbedDur position duration trimInfo,
            (insertWorkingRange mainDur position trimInfo).we⟩ : VideoSeg)
          ∈ overlappingSegments mainDur insProbedDur position duration trimInfo) := by
  have hL := workingRangeLen_eq mainDur position trimInfo
  have hrel := insertWorkingRange_relPos mainDur position trimInfo hpos0 hpos1
  unfold overlapInsertEnd at hrem ⊢
  unfold overlappingSegments
  dsimp only
  rw [hrel] at hrem ⊢
  rw [hL] at hrem hpos1 ⊢
  set A := (insertWorkingRange mainDur position trimInfo).ws with hA
  set B := (insertWorkingRange mainDur position trimInfo).we with hB
  have harith : A + position - A = position := by ring
  rw [harith]
  constructor
  · rcases hlo with hlo | hlo <;> rcases hrem with hrem | hrem <;>
      split_ifs <;>
      simp [segmentsDuration, VideoSeg.dur] <;>
      linarith [min_le_left
          (position + duration ⊓ insEffectiveDur insProbedDur duration) (B - A),
        min_le_right
          (position + duration ⊓ insEffectiveDur insProbedDur duration) (B - A)]
  · intro hafter
    refine List.mem_append.mpr (Or.inr ?_)
    rw [if_pos (by linarith)]
    simp only [List.mem_singleton, VideoSeg.mk.injEq]
    exact ⟨trivial, by ring, trivial⟩

/-- Witness for the amended C2 theorem at base 10s, insert probed 20s,
position 2, requested duration 3, no trim: output is 10s and the base
resumes at 5s (position 2 + inserted 3), skipping the replaced range. -/
theorem overlapping_insert_duration_witness :
    segmentsDuration (overlappingSegments 10 20 2 3 none)
      = workingRangeLen 10 none
    ∧ (1/10 < workingRangeLen 10 none - overlapInsertEnd 10 20 2 3 none →
        (⟨0, (insertWorkingRange 10 2 none).ws + overlapInsertEnd 10 20 2 3 none,
            (insertWorkingRange 10 2 none).we⟩ : VideoSeg)
          ∈ overlappingSegments 10 20 2 3 none) :=
  overlapping_insert_duration 10 20 2 3 none (by norm_num)
    (by norm_num [workingRangeLen, insertWorkingRange])
    (Or.inr (by norm_num))
    (Or.inr (by norm_num [workingRangeLen, insertWorkingRange,
      overlapInsertEnd, insEffectiveDur]))

/-! ## Speed change: chained atempo factors

`speed.js` (`applySpeed`) and `audio.js` (`applySpeedWithAudio`) build the
audio filter chain for a speed factor.  An `atempo` filter only supports
`[0.5, 2.0]`, so for `speedValue > 2` the code chains `atempo=2.0` and
`atempo=speedValue/2.0`. -/

/-- `speed.js` lines 30-36: the list of atempo factors applied to the audio
stream by `applySpeed` (when the source has audio). -/
def applySpeedTempos (speedValue : ℚ) : List ℚ :=
  if speedValue > 2 then [2, speedValue / 2] else [speedValue]

/-- `audio.js` lines 303-321 (`applySpeedWithAudio`): the list of atempo
factors applied to the replacement audio, in both the trimmed and the
untrimmed chain (the JS spells the same branch twice). -/
def applySpeedWithAudioTempos (speedValue : ℚ) (hasTrim : Bool) : List ℚ :=
  if hasTrim then
    if speedValue > 2 then [2, speedValue / 2] else [speedValue]
  else
    if speedValue > 2 then [2, speedValue / 2] else [speedValue]

/-- C4: for every speed `s`, the speed-only path and the
speed-plus-audio-replacement path use exactly one tempo filter with factor
`s` when `s ≤ 2`, and exactly the two chained factors `2.0` and `s / 2.0` —
whose product is exactly `s` — when `s > 2`. -/
theorem speed_tempo_chain (s : ℚ) (hasTrim : Bool) :
    (s ≤ 2 →
      applySpeedTempos s = [s]
      ∧ applySpeedWithAudioTempos s hasTrim = [s])
    ∧ (2 < s →
      applySpeedTempos s = [2, s / 2]
      ∧ applySpeedWithAudioTempos s hasTrim = [2, s / 2]
      ∧ (2 : ℚ) * (s / 2) = s
      ∧ (applySpeedTempos s).prod = s) := by
  unfold applySpeedTempos applySpeedWithAudioTempos
  constructor
  · intro hle
    rw [if_neg (by linarith)]
    cases hasTrim <;> simp
  · intro hgt
    rw [if_pos (by linarith)]
    have hprod : (2 : ℚ) * (s / 2) = s := by ring
    refine ⟨rfl, ?_, hprod, by simp [hprod, mul_comm]⟩
    cases hasTrim <;> simp

/-- Witness for C4 at `s = 3` (two chained filters) and `s = 3/2` (one
filter), with and without audio trim. -/
theorem speed_tempo_chain_witness :
    (applySpeedTempos (3/2) = [3/2]
      ∧ applySpeedWithAudioTempos (3/2) false = [3/2])
    ∧ (applySpeedTempos 3 = [2, 3/2]
      ∧ applySpeedWithAudioTempos 3 true = [2, 3/2]
      ∧ (2 : ℚ) * (3 / 2) = 3
      ∧ (applySpeedTempos 3).prod = 3) := by
  constructor
  · have h := (speed_tempo_chain (3/2) false).1 (by norm_num)
    simpa using h
  · have h := (speed_tempo_chain 3 true).2 (by norm_num)
    simpa using h

/-! ## Pipeline orchestrator

`pipeline.js` (`processVideoPipeline`): stage selection, threading of the
current artifact, temp-file registration, and the catch/finally cleanup via
`fileUtils.js` (`cleanupTempFiles`).  The external engine is an oracle
assigning each stage invocation a result (success, or an error value plus
whether a partially written output file exists); the filesystem is the list
of existing paths; per-path deletion success is an oracle `delOk` (the JS
`fs.unlinkSync` try/catch). -/

/-- `features.trim` as sent by the frontend; either field may be absent. -/
structure TrimFeature where
  start : Option ℚ
  stop : Option ℚ
deriving Repr, DecidableEq

/-- `features.insert`; `video` may be absent or an empty (falsy) string. -/
structure InsertFeature where
  video : Option String
  position : Option ℚ
  seconds : Option ℚ
deriving Repr, DecidableEq

/-- The feature request object consumed by `processVideoPipeline`. -/
structure Features where
  trim : Option TrimFeature
  merge : Option (List String)
  insert : Option InsertFeature
  speed : Option ℚ
  audio : Option String
deriving Repr, DecidableEq

/-- `pipeline.js` line 32:
`features.insert && features.insert.video && typeof features.insert.video === 'string'`. -/
def hasInsert (f : Features) : Bool :=
  match f.insert with
  | some i => match i.video with
    | some v => !(v == "")
    | none => false
  | none => false

/-- `pipeline.js` lines 35-41: the standalone trim stage runs only when a
valid trim is present and no insert is requested. -/
def trimStageSelected (f : Features) : Bool :=
  match f.trim with
  | some t =>
      !hasInsert f &&
      (match t.start, t.stop with
       | some s, some e => decide (0 ≤ s) && decide (e > s)
       | _, _ => false)
  | none => false

/-- `pipeline.js` line 74: `features.merge && Array.isArray(...) && length > 0`. -/
def hasMerge (f : Features) : Bool :=
  match f.merge with
  | some l => !l.isEmpty
  | none => false

/-- `pipeline.js` line 75: `features.speed && features.speed !== 1.0`
(JS `0` is falsy). -/
def hasSpeed (f : Features) : Bool :=
  match f.speed with
  | some s => !(s == 0) && !(s == 1)
  | none => false

/-- `pipeline.js` line 76: `features.audio && typeof features.audio === 'string'`
(an empty string is falsy). -/
def hasAudio (f : Features) : Bool :=
  match f.audio with
  | some a => !(a == "")
  | none => false

/-- The kinds of stage the orchestrator can run. -/
inductive StageKind where
  | trim
  | insert
  | merge
  | speedAudio
  | speed
  | audio
  | copy
deriving Repr, DecidableEq

/-- `pipeline.js` lines 93-123: which effects stage (step 3) runs. -/
def effectsKind (f : Features) : StageKind :=
  if hasSpeed f && hasAudio f then .speedAudio
  else if hasSpeed f then .speed
  else if hasAudio f then .audio
  else .copy

/-- One planned stage: its kind, output path, whether that path is
registered as a temp artifact, and (for the insert stage) the trim
parameters handed to the insert builder (`pipeline.js` lines 56-59). -/
structure StageSpec where
  kind : StageKind
  out : String
  isTemp : Bool
  trimArg : Option TrimFeature
deriving Repr, DecidableEq

/-- Temp paths (`pipeline.js` lines 43, 53, 82; the `Date.now()` suffix is
irrelevant to the logic and omitted). -/
def tempTrimFile : String := "temp_trim.mp4"

def tempInsertFile : String := "temp_insert.mp4"

def tempMergeFile : String := "temp_merge.mp4"

/-- The ordered stage plan computed by `processVideoPipeline` (lines
30-123): optional standalone trim (suppressed by insert), optional insert
(receiving the trim parameters), optional merge, then exactly one effects
stage writing to the final output path. -/
def stagePlan (f : Features) (outputPath : String) : List StageSpec :=
  (if trimStageSelected f then [⟨.trim, tempTrimFile, true, none⟩] else []) ++
  (if hasInsert f then [⟨.insert, tempInsertFile, true, f.trim⟩] else []) ++
  (if hasMerge f then [⟨.merge, tempMergeFile, true, none⟩] else []) ++
  [⟨effectsKind f, outputPath, false, none⟩]

/-- Result of one external-engine invocation: success, or an error value
plus whether a partially written output file exists in spite of it. -/
inductive EngineResult where
  | ok : EngineResult
  | fail (e : String) (wrote : Bool) : EngineResult
deriving Repr, DecidableEq

/-- The engine oracle: one result per stage invocation the plan can make. -/
structure Engine where
  trimRun : EngineResult
  insertRun : EngineResult
  mergeRun : EngineResult
  effectsRun : EngineResult
deriving Repr, DecidableEq

def Engine.runOf (eng : Engine) : StageKind → EngineResult
  | .trim => eng.trimRun
  | .insert => eng.insertRun
  | .merge => eng.mergeRun
  | .speedAudio => eng.effectsRun
  | .speed => eng.effectsRun
  | .audio => eng.effectsRun
  | .copy => eng.effectsRun

/-- The error values the engine can produce (used to state that a surfaced
error is one of the engine's original errors, unmodified). -/
def EngineResult.errOf : EngineResult → List String
  | .ok => []
  | .fail e _ => [e]

def engineErrors (eng : Engine) : List String :=
  eng.trimRun.errOf ++ eng.insertRun.errOf ++ eng.mergeRun.errOf
    ++ eng.effectsRun.errOf

/-- `fileUtils.js` lines 58-68 (`cleanupTempFiles`): for each temp path, if
the file exists attempt to delete it; a failing deletion (`delOk p = false`,
the JS catch around `fs.unlinkSync`) is logged and the loop continues.
Totality of this function is the model of "cleanup never raises past the
caller". -/
def cleanupTempFiles (delOk : String → Bool) (tempFiles : List String)
    (fs : List String) : List String :=
  tempFiles.foldl
    (fun acc p =>
      if p ∈ acc then (if delOk p then acc.filter (fun q => !(q == p)) else acc)
      else acc)
    fs

/-- Result of one pipeline invocation: the outcome (output path or the
propagated error), the temp files registered, the final filesystem, and the
trace of executed stages with the artifact each received as input. -/
structure PipelineResult where
  outcome : Except String String
  temps : List String
  fs : List String
  trace : List (StageKind × String)

/-- The stage loop of `processVideoPipeline`: each stage pushes its temp
path onto `tempFiles` before invoking the engine; on success the output
becomes the current artifact, on failure the loop stops with the engine's
error (a partially written output may remain on disk). -/
def runStages (eng : Engine) :
    List StageSpec → String → List String → List String →
      List (StageKind × String) → PipelineResult
  | [], current, temps, fs, trace => ⟨.ok current, temps, fs, trace⟩
  | spec :: rest, current, temps, fs, trace =>
      let temps1 := if spec.isTemp then temps ++ [spec.out] else temps
      match eng.runOf spec.kind with
      | .ok =>
          runStages eng rest spec.out temps1 (fs ++ [spec.out])
            (trace ++ [(spec.kind, current)])
      | .fail e wrote =>
          ⟨.error e, temps1, if wrote then fs ++ [spec.out] else fs,
            trace ++ [(spec.kind, current)]⟩

/-- `pipeline.js` lines 18-132 (`processVideoPipeline`): run the planned
stages; on a stage failure the catch block cleans up the registered temp
files and rethrows the engine's error, then the finally block cleans up
again; on success the finally block removes the temp files. -/
def processVideoPipeline (eng : Engine) (delOk : String → Bool)
    (mainVideo : String) (f : Features) (outputPath : String)
    (fs0 : List String) : PipelineResult :=
  let r := runStages eng (stagePlan f outputPath) mainVideo [] fs0 []
  match r.outcome with
  | .error e =>
      let fs1 := cleanupTempFiles delOk r.temps r.fs
      ⟨.error e, r.temps, cleanupTempFiles delOk r.temps fs1, r.trace⟩
  | .ok out => ⟨.ok out, r.temps, cleanupTempFiles delOk r.temps r.fs, r.trace⟩

/-- Cleanup never adds files, and removes every listed path whose deletion
succeeds: afterwards `p` is absent whenever it was already absent, or it was
listed and `delOk p` holds. -/
theorem cleanup_not_mem (delOk : String → Bool) (tempFiles : List String) :
    ∀ fs p, (p ∉ fs ∨ (p ∈ tempFiles ∧ delOk p = true)) →
      p ∉ cleanupTempFiles delOk tempFiles fs := by
  induction tempFiles with
  | nil =>
      intro fs p hp
      simpa [cleanupTempFiles] using hp.resolve_right (by simp)
  | cons q rest ih =>
      intro fs p hp
      simp only [cleanupTempFiles, List.foldl_cons] at *
      apply ih
      rcases hp with hp | ⟨hmem, hdel⟩
      · left
        split_ifs with h1 h2
        · simp only [List.mem_filter]
          exact fun hc => hp hc.1
        · exact hp
        · exact hp
      · rcases List.mem_cons.mp hmem with heq | hrest
        · subst heq
          left
          split_ifs <;> simp_all [List.mem_filter]
        · right
          exact ⟨hrest, hdel⟩

/-- A pipeline error is one of the engine's own error values. -/
theorem runOf_fail_mem (eng : Engine) (k : StageKind) (e : String) (w : Bool)
    (h : eng.runOf k = .fail e w) : e ∈ engineErrors eng := by
  cases k <;>
    simp only [Engine.runOf] at h <;>
    simp [engineErrors, EngineResult.errOf, h]

theorem runStages_error_mem (eng : Engine) (specs : List StageSpec) :
    ∀ current temps fs trace e,
      (runStages eng specs current temps fs trace).outcome = .error e →
      e ∈ engineErrors eng := by
  induction specs with
  | nil => intro current temps fs trace e h; simp [runStages] at h
  | cons spec rest ih =>
      intro current temps fs trace e h
      simp only [runStages] at h
      rcases hr : eng.runOf spec.kind with _ | ⟨e1, w⟩ <;> rw [hr] at h
      · exact ih _ _ _ _ _ h
      · simp only [Except.error.injEq] at h
        exact h ▸ runOf_fail_mem eng spec.kind e1 w hr

/-- The outcome and the registered temp files do not depend on the deletion
oracle (deletion failures cannot mask or alter the propagated error). -/
theorem processVideoPipeline_outcome (eng : Engine) (delOk : String → Bool)
    (mainVideo : String) (f : Features) (outputPath : String)
    (fs0 : List String) :
    (processVideoPipeline eng delOk mainVideo f outputPath fs0).outcome
        = (runStages eng (stagePlan f outputPath) mainVideo [] fs0 []).outcome
    ∧ (processVideoPipeline eng delOk mainVideo f outputPath fs0).temps
        = (runStages eng (stagePlan f outputPath) mainVideo [] fs0 []).temps := by
  unfold processVideoPipeline
  rcases h : (runStages eng (stagePlan f outputPath) mainVideo [] fs0 []).outcome
    with e | out <;> simp [h]

/-- C5: if any pipeline stage fails then the surfaced error is one of the
engine's original error values (propagated unchanged for every deletion
oracle — deletion failures are swallowed inside `cleanupTempFiles` and never
mask it), and every temp artifact registered up to the failure whose
deletion succeeds is absent from the final filesystem. -/
theorem pipeline_cleanup_on_failure (eng : Engine) (delOk : String → Bool)
    (mainVideo : String) (f : Features) (outputPath : String)
    (fs0 : List String) (e : String)
    (herr : (processVideoPipeline eng delOk mainVideo f outputPath fs0).outcome
              = .error e) :
    e ∈ engineErrors eng
    ∧ (∀ p ∈ (processVideoPipeline eng delOk mainVideo f outputPath fs0).temps,
        delOk p = true →
        p ∉ (processVideoPipeline eng delOk mainVideo f outputPath fs0).fs)
    ∧ (∀ delOk2 : String → Bool,
        (processVideoPipeline eng delOk2 mainVideo f outputPath fs0).outcome
          = .error e) := by
  have houtcome := processVideoPipeline_outcome eng delOk mainVideo f outputPath fs0
  refine ⟨?_, ?_, ?_⟩
  · exact runStages_error_mem eng (stagePlan f outputPath) mainVideo [] fs0 [] e
      (houtcome.1 ▸ herr)
  · intro p hp hdel
    have htemps := houtcome.2
    unfold processVideoPipeline at hp ⊢
    rcases h : (runStages eng (stagePlan f outputPath) mainVideo [] fs0 []).outcome
      with e1 | out <;> simp only [h] at hp ⊢
    · exact cleanup_not_mem delOk _ _ p (Or.inr ⟨by simpa [h, htemps] using hp, hdel⟩)
    · exact cleanup_not_mem delOk _ _ p (Or.inr ⟨by simpa [h, htemps] using hp, hdel⟩)
  · intro delOk2
    have h2 := processVideoPipeline_outcome eng delOk2 mainVideo f outputPath fs0
    rw [h2.1, ← houtcome.1]
    exact herr

/-- Witness for C5: an engine whose insert stage fails with "boom" while
the request carries an insert feature; the error is the engine's own, the
registered temp file is gone after the run, and the outcome under a
deletion oracle that always fails is still the same error. -/
theorem pipeline_cleanup_on_failure_witness :
    "boom" ∈ engineErrors ⟨.ok, .fail "boom" true, .ok, .ok⟩
    ∧ tempInsertFile
        ∉ (processVideoPipeline ⟨.ok, .fail "boom" true, .ok, .ok⟩
            (fun _ => true) "main.mp4"
            ⟨none, none, some ⟨some "ins.mp4", none, none⟩, none, none⟩
            "out.mp4" ["main.mp4"]).fs
    ∧ (processVideoPipeline ⟨.ok, .fail "boom" true, .ok, .ok⟩
          (fun _ => false) "main.mp4"
          ⟨none, none, some ⟨some "ins.mp4", none, none⟩, none, none⟩
          "out.mp4" ["main.mp4"]).outcome = .error "boom" := by
  have h := pipeline_cleanup_on_failure ⟨.ok, .fail "boom" true, .ok, .ok⟩
    (fun _ => true) "main.mp4"
    ⟨none, none, some ⟨some "ins.mp4", none, none⟩, none, none⟩
    "out.mp4" ["main.mp4"] "boom" rfl
  exact ⟨h.1, h.2.1 tempInsertFile (List.mem_singleton_self _) rfl,
    h.2.2 (fun _ => false)⟩

/-- The effects stage is never a trim stage. -/
theorem effectsKind_ne_trim (f : Features) : effectsKind f ≠ .trim := by
  unfold effectsKind
  split_ifs <;> simp

/-- Every run appends its executed stages to the incoming trace. -/
theorem runStages_trace (eng : Engine) (specs : List StageSpec) :
    ∀ current temps fs trace,
      ∃ tl, (runStages eng specs current temps fs trace).trace = trace ++ tl := by
  induction specs with
  | nil => intro current temps fs trace; exact ⟨[], by simp [runStages]⟩
  | cons spec rest ih =>
      intro current temps fs trace
      simp only [runStages]
      rcases h : eng.runOf spec.kind with _ | ⟨e, w⟩ <;> dsimp only
      · obtain ⟨tl, htl⟩ := ih spec.out
          (if spec.isTemp then temps ++ [spec.out] else temps)
          (fs ++ [spec.out]) (trace ++ [(spec.kind, current)])
        exact ⟨(spec.kind, current) :: tl, by rw [htl]; simp⟩
      · exact ⟨[(spec.kind, current)], by simp⟩

/-- The first executed stage of a nonempty plan is its head, applied to the
incoming current artifact. -/
theorem runStages_head (eng : Engine) (spec : StageSpec) (rest : List StageSpec)
    (current : String) (temps fs : List String) :
    (runStages eng (spec :: rest) current temps fs []).trace.head?
      = some (spec.kind, current) := by
  simp only [runStages]
  rcases h : eng.runOf spec.kind with _ | ⟨e, w⟩ <;> dsimp only
  · obtain ⟨tl, htl⟩ := runStages_trace eng rest spec.out
      (if spec.isTemp then temps ++ [spec.out] else temps) (fs ++ [spec.out])
      ([] ++ [(spec.kind, current)])
    rw [htl]
    rfl
  · rfl

/-- The executed-stage trace does not depend on the deletion oracle and is
the trace of the stage loop. -/
theorem processVideoPipeline_trace (eng : Engine) (delOk : String → Bool)
    (mainVideo : String) (f : Features) (outputPath : String)
    (fs0 : List String) :
    (processVideoPipeline eng delOk mainVideo f outputPath fs0).trace
      = (runStages eng (stagePlan f outputPath) mainVideo [] fs0 []).trace := by
  unfold processVideoPipeline
  rcases h : (runStages eng (stagePlan f outputPath) mainVideo [] fs0 []).outcome
    with e | out <;> simp [h]

/-- C6: when an insert is requested the orchestrator never runs a
standalone trim stage: the stage plan contains no trim stage, it contains
the insert stage carrying the request's trim parameters for the insert
builder, and — for every engine, deletion oracle, base asset and starting
filesystem — the first executed stage is the insert applied to the
unmodified base asset. -/
theorem insert_supersedes_trim (f : Features) (outputPath : String)
    (hins : hasInsert f = true) :
    (∀ s ∈ stagePlan f outputPath, s.kind ≠ .trim)
    ∧ (⟨.insert, tempInsertFile, true, f.trim⟩ : StageSpec) ∈ stagePlan f outputPath
    ∧ (∀ (eng : Engine) (delOk : String → Bool) (mainVideo : String)
          (fs0 : List String),
        (processVideoPipeline eng delOk mainVideo f outputPath fs0).trace.head?
          = some (.insert, mainVideo)) := by
  have htrim : trimStageSelected f = false := by
    unfold trimStageSelected
    cases h : f.trim
    · rfl
    · simp [hins]
  have hplan : stagePlan f outputPath
      = (⟨.insert, tempInsertFile, true, f.trim⟩ : StageSpec) ::
        ((if hasMerge f then [⟨.merge, tempMergeFile, true, none⟩] else []) ++
          [⟨effectsKind f, outputPath, false, none⟩]) := by
    unfold stagePlan
    rw [htrim, hins]
    simp
  refine ⟨?_, ?_, ?_⟩
  · intro s hs
    rw [hplan] at hs
    rcases List.mem_cons.mp hs with h | h
    · rw [h]; simp
    · rcases List.mem_append.mp h with h | h
      · rcases hm : hasMerge f <;> rw [hm] at h <;> simp at h
        rw [h]; simp
      · simp at h
        rw [h]
        exact effectsKind_ne_trim f
  · rw [hplan]
    exact List.mem_cons_self _ _
  · intro eng delOk mainVideo fs0
    rw [processVideoPipeline_trace, hplan]
    exact runStages_head eng _ _ mainVideo [] fs0

/-! ## Frontend feature guard

`App.jsx` (`generatePreview`, and identically `exportAllFeatures`): the
request is submitted to the backend pipeline only when at least one feature
field is active. -/

/-- `App.jsx` lines 247-248:
`features.trim || features.merge || features.insert || (features.speed && features.speed !== 1.0) || features.audio`
(JS object truthiness for trim/merge/insert; `0` and `1.0` are excluded for
speed; the audio field of the embedding is its asset path, falsy when
empty). -/
def hasFeaturesCheck (f : Features) : Bool :=
  f.trim.isSome || f.merge.isSome || f.insert.isSome ||
  (match f.speed with
   | some s => !(s == 0) && !(s == 1)
   | none => false) ||
  (match f.audio with
   | some a => !(a == "")
   | none => false)

/-- Outcome of the `generatePreview` guard. -/
inductive PreviewDecision where
  | rejected
  | submits (f : Features) (mainVideoPath : String)
deriving Repr, DecidableEq

/-- `App.jsx` lines 246-263 (`generatePreview`): when no feature is active
the function alerts and returns before `window.api.generatePreview` — the
backend pipeline is never invoked.  `exportAllFeatures` (lines 303-320)
performs the identical check before `window.api.exportVideo`. -/
def generatePreviewDecision (f : Features) (mainVideoPath : String) :
    PreviewDecision :=
  if hasFeaturesCheck f then .submits f mainVideoPath else .rejected

/-- C8: a feature request with no non-default field (no trim, no merge
list, no insert, speed absent or equal to 1.0, no audio) is rejected by the
guard before submission, so no pipeline stage or engine invocation runs on
the base asset. -/
theorem default_request_rejected (f : Features) (mainVideoPath : String)
    (htrim : f.trim = none) (hmerge : f.merge = none) (hins : f.insert = none)
    (hspeed : f.speed = none ∨ f.speed = some 1) (haudio : f.audio = none) :
    generatePreviewDecision f mainVideoPath = .rejected := by
  rcases hspeed with h | h <;>
    simp [generatePreviewDecision, hasFeaturesCheck, htrim, hmerge, hins, h,
      haudio]

/-- Witness for C8: the all-default request (speed exactly 1.0) is
rejected. -/
theorem default_request_rejected_witness :
    generatePreviewDecision ⟨none, none, none, some 1, none⟩ "main.mp4"
      = .rejected :=
  default_request_rejected ⟨none, none, none, some 1, none⟩ "main.mp4"
    rfl rfl rfl (Or.inr rfl) rfl

/-- Witness for C6: a request with both a trim and an insert; the plan
contains the insert stage carrying the trim parameters, and the first
executed stage is the insert applied to the base asset. -/
theorem insert_supersedes_trim_witness :
    ((⟨StageKind.insert, tempInsertFile, true, some ⟨some 1, some 3⟩⟩ :
        StageSpec)
      ∈ stagePlan
          ⟨some ⟨some 1, some 3⟩, none, some ⟨some "ins.mp4", none, none⟩,
            none, none⟩ "out.mp4")
    ∧ (processVideoPipeline ⟨.ok, .ok, .ok, .ok⟩ (fun _ => true) "main.mp4"
          ⟨some ⟨some 1, some 3⟩, none, some ⟨some "ins.mp4", none, none⟩,
            none, none⟩ "out.mp4" []).trace.head?
        = some (.insert, "main.mp4") := by
  have h := insert_supersedes_trim
    ⟨some ⟨some 1, some 3⟩, none, some ⟨some "ins.mp4", none, none⟩, none,
      none⟩ "out.mp4" rfl
  exact ⟨h.2.1, h.2.2 ⟨.ok, .ok, .ok, .ok⟩ (fun _ => true) "main.mp4" []⟩

/-! ## Audio replacement (`audio.js`, `replaceAudio`)

The builder is modelled by the video filter chain it emits, the JS
`outputDuration` variable, and the durations of the filtered video and
audio streams (`none` = unbounded, produced by the infinite `loop`/`aloop`
filters).  The container duration follows the emitted output options:
`-t outputDuration` when `outputDuration` is truthy, `-shortest`
otherwise. -/

/-- Options consumed by `replaceAudio` (`audio.js` lines 20-33); absent
fields are `undefined`. -/
structure AudioOptions where
  trimStart : Option ℚ
  trimEnd : Option ℚ
  priority : Option String
  placement : Option String
  startTime : Option ℚ
  endTime : Option ℚ
  videoDuration : Option ℚ
  audioDuration : Option ℚ
deriving Repr, DecidableEq

/-- `options.trimStart || 0`. -/
def AudioOptions.trimStartVal (o : AudioOptions) : ℚ := o.trimStart.getD 0

/-- `options.trimEnd || null` (a zero value is falsy and becomes null). -/
def AudioOptions.trimEndVal (o : AudioOptions) : Option ℚ :=
  match o.trimEnd with
  | some e => if e = 0 then none else some e
  | none => none

/-- `options.startTime || 0`. -/
def AudioOptions.startTimeVal (o : AudioOptions) : ℚ := o.startTime.getD 0

/-- `options.endTime || null`. -/
def AudioOptions.endTimeVal (o : AudioOptions) : Option ℚ :=
  match o.endTime with
  | some e => if e = 0 then none else some e
  | none => none

/-- `audio.js` line 37:
`Number(videoMeta.format.duration) || videoDuration || 0` — the probed
duration (`0` models missing/NaN) with the option value as fallback. -/
def actualVideoDur (videoSrcDur : ℚ) (o : AudioOptions) : ℚ :=
  if videoSrcDur = 0 then o.videoDuration.getD 0 else videoSrcDur

/-- `audio.js` lines 41-56: `options.audioDuration` when truthy, else the
probed duration of the audio file. -/
def actualAudioDur (audioSrcDur : ℚ) (o : AudioOptions) : ℚ :=
  match o.audioDuration with
  | some a => if a = 0 then audioSrcDur else a
  | none => audioSrcDur

/-- `audio.js` line 67: the custom-placement branch is taken when
`placement === "custom" && endTime !== null && endTime > startTime`. -/
def AudioOptions.isCustomB (o : AudioOptions) : Bool :=
  match o.placement, o.endTimeVal with
  | some p, some endT => (p == "custom") && decide (endT > o.startTimeVal)
  | _, _ => false

/-- `audio.js` line 25: `hasTrim = trimEnd !== null && trimEnd > trimStart`. -/
def AudioOptions.hasTrimB (o : AudioOptions) : Bool :=
  match o.trimEndVal with
  | some e => decide (e > o.trimStartVal)
  | none => false

/-- `audio.js` line 64:
`trimmedAudioDuration = hasTrim ? (trimEnd - trimStart) : actualAudioDuration`. -/
def trimmedAudioDur (audioSrcDur : ℚ) (o : AudioOptions) : ℚ :=
  if o.hasTrimB then o.trimEndVal.getD 0 - o.trimStartVal
  else actualAudioDur audioSrcDur o


/-- Video filter operations `replaceAudio` can emit on the `[v]` chain. -/
inductive VideoFilterOp where
  | copy
  | vloop
  | vtrim (s e : ℚ)
deriving Repr, DecidableEq

/-- Duration of `trim=start=s:end=e` applied to a stream of length `L`. -/
def trimLen (L s e : ℚ) : ℚ := max 0 (min e L - min s L)

/-- Length of the `[1:a]` stream after the optional
`atrim=start=trimStart:end=trimEnd` (`asetpts` preserves it), applied to an
audio file of length `audioSrcDur`. -/
def audioStreamAfterTrim (audioSrcDur : ℚ) (o : AudioOptions) : ℚ :=
  if o.hasTrimB then trimLen audioSrcDur o.trimStartVal (o.trimEndVal.getD 0)
  else audioSrcDur

/-- Duration of the video stream after a filter chain applied to a source
of length `L`; `none` is an unbounded stream (infinite `loop`). -/
def vchainDur (L : ℚ) (chain : List VideoFilterOp) : Option ℚ :=
  chain.foldl
    (fun d op =>
      match op with
      | .copy => d
      | .vloop => none
      | .vtrim s e =>
          match d with
          | some dd => some (trimLen dd s e)
          | none => some (max 0 (e - s)))
    (some L)

/-- The parts of the `replaceAudio` invocation relevant to durations:
the video filter chain, the JS `outputDuration` (all branches assign it;
`0` is falsy and yields `-shortest`, line 229), and the filtered audio
stream's duration (`none` = unbounded `aloop`). -/
structure ReplaceAudioCmd where
  videoChain : List VideoFilterOp
  outputDuration : ℚ
  audioOutDur : Option ℚ
deriving Repr, DecidableEq

/-- `audio.js` lines 58-192 (`replaceAudio`): dispatch on custom placement,
then on priority.  The audio stream duration per branch follows the emitted
`atrim`/`aloop` chain applied to the source audio of length `audioSrcDur`
(for the custom branch, the sum of the concatenated segments, each gated by
the 0.1 threshold). -/
def replaceAudio (videoSrcDur audioSrcDur : ℚ) (_videoHasAudio : Bool)
    (o : AudioOptions) : ReplaceAudioCmd :=
  let aVid := actualVideoDur videoSrcDur o
  let tAud := trimmedAudioDur audioSrcDur o
  if o.isCustomB then
    -- lines 67-130: video copied, output cut at the video duration; the
    -- audio timeline is before / during / after, segments below 0.1s are
    -- dropped, and with no segment at all a silent track of the full video
    -- length is synthesized
    let customStart := max 0 (min o.startTimeVal aVid)
    let customEnd := max customStart (min (o.endTimeVal.getD 0) aVid)
    let customDuration := customEnd - customStart
    let segs : List ℚ :=
      (if customStart > 1/10 then [customStart] else []) ++
      (if customDuration > 1/10 then [customDuration] else []) ++
      (if customEnd < aVid - 1/10 then [aVid - customEnd] else [])
    ⟨[.copy], aVid, some (if segs.isEmpty then aVid else segs.sum)⟩
  else if o.priority = some "audio" then
    if tAud > aVid then
      -- lines 134-147: audio longer — loop the video, play the (trimmed)
      -- audio once
      ⟨[.vloop], tAud, some (audioStreamAfterTrim audioSrcDur o)⟩
    else
      -- lines 148-161: audio shorter or equal — trim the video to the
      -- audio duration
      ⟨[.vtrim 0 tAud], tAud, some (audioStreamAfterTrim audioSrcDur o)⟩
  else if o.priority = some "video" then
    -- lines 162-182: video copied; audio looped when shorter, trimmed to
    -- the video duration when longer or equal
    if tAud < aVid then ⟨[.copy], aVid, none⟩
    else
      ⟨[.copy], aVid,
        some (if o.hasTrimB then
                trimLen audioSrcDur o.trimStartVal (o.trimStartVal + aVid)
              else trimLen audioSrcDur 0 aVid)⟩
  else
    -- lines 183-192: no priority — video copied, `-t min(video, audio)`
    ⟨[.copy], min aVid tAud, some (audioStreamAfterTrim audioSrcDur o)⟩

/-- Longest stream in the output (`none` = unbounded). -/
def durMax : Option ℚ → Option ℚ → Option ℚ
  | some a, some b => some (max a b)
  | _, _ => none

/-- Shortest stream in the output. -/
def durMin : Option ℚ → Option ℚ → Option ℚ
  | some a, some b => some (min a b)
  | some a, none => some a
  | none, d => d

/-- `audio.js` lines 229-233: `-t outputDuration` when `outputDuration` is
truthy, else `-shortest`; the container holds the written streams, cut at
`-t` when given. -/
def containerDur (outputDuration : ℚ) (vd ad : Option ℚ) : Option ℚ :=
  if outputDuration = 0 then durMin vd ad
  else
    match durMax vd ad with
    | some m => some (min outputDuration m)
    | none => some outputDuration

/-- Output duration of a `replaceAudio` invocation on a video of length
`videoSrcDur` and an audio file of length `audioSrcDur`. -/
def replaceAudioOutDur (videoSrcDur audioSrcDur : ℚ) (videoHasAudio : Bool)
    (o : AudioOptions) : Option ℚ :=
  let cmd := replaceAudio videoSrcDur audioSrcDur videoHasAudio o
  containerDur cmd.outputDuration (vchainDur videoSrcDur cmd.videoChain)
    cmd.audioOutDur

/-- A placement other than "custom" never takes the custom branch. -/
theorem isCustomB_false (o : AudioOptions)
    (h : o.placement ≠ some "custom") : o.isCustomB = false := by
  unfold AudioOptions.isCustomB
  rcases hp : o.placement with _ | p
  · rcases o.endTimeVal with _ | e <;> simp
  · rcases o.endTimeVal with _ | e
    · simp
    · have hne : p ≠ "custom" := by rw [hp] at h; simpa using h
      have hb : (p == "custom") = false := beq_eq_false_iff_ne.mpr hne
      simp [hb]

/-- The trimmed audio stream is never of negative length. -/
theorem audioStreamAfterTrim_nonneg (audioSrcDur : ℚ) (o : AudioOptions)
    (ha : 0 ≤ audioSrcDur) : 0 ≤ audioStreamAfterTrim audioSrcDur o := by
  unfold audioStreamAfterTrim
  split_ifs
  · exact le_max_left 0 _
  · exact ha

/-- The JS `trimmedAudioDuration` is nonnegative when the actual audio
duration is. -/
theorem trimmedAudioDur_nonneg (audioSrcDur : ℚ) (o : AudioOptions)
    (haud : 0 ≤ actualAudioDur audioSrcDur o) :
    0 ≤ trimmedAudioDur audioSrcDur o := by
  unfold trimmedAudioDur
  split_ifs with h
  · unfold AudioOptions.hasTrimB at h
    rcases he : o.trimEndVal with _ | e
    · rw [he] at h; simp at h
    · rw [he] at h
      simp only [decide_eq_true_eq] at h
      simp only [Option.getD_some]
      linarith
  · exact haud

/-- C3: under replace mode with `audio_priority` placement (the frontend
maps it to priority "audio"), the output duration always equals the
(possibly trimmed) new audio's length: when the trimmed audio is longer
than the video the video chain is a `loop` filter and the output is cut to
that length; when it is shorter or equal the video is trimmed to the
audio's length; in both cases the container is cut to the trimmed audio
duration. -/
theorem replace_audio_priority_tracks_audio
    (videoSrcDur audioSrcDur : ℚ) (vh : Bool) (o : AudioOptions)
    (hplace : o.placement = some "audio_priority")
    (hprio : o.priority = some "audio")
    (hv : 0 < videoSrcDur) (ha : 0 ≤ audioSrcDur)
    (haud : 0 ≤ actualAudioDur audioSrcDur o) :
    replaceAudioOutDur videoSrcDur audioSrcDur vh o
        = some (trimmedAudioDur audioSrcDur o)
    ∧ (trimmedAudioDur audioSrcDur o > actualVideoDur videoSrcDur o →
        (replaceAudio videoSrcDur audioSrcDur vh o).videoChain = [.vloop])
    ∧ (trimmedAudioDur audioSrcDur o ≤ actualVideoDur videoSrcDur o →
        (replaceAudio videoSrcDur audioSrcDur vh o).videoChain
          = [.vtrim 0 (trimmedAudioDur audioSrcDur o)]) := by
  have hcust : o.isCustomB = false := isCustomB_false o (by rw [hplace]; simp)
  have hanonneg := audioStreamAfterTrim_nonneg audioSrcDur o ha
  have htnonneg := trimmedAudioDur_nonneg audioSrcDur o haud
  have hvid : actualVideoDur videoSrcDur o = videoSrcDur := by
    unfold actualVideoDur
    rw [if_neg (ne_of_gt hv)]
  have hcmd : replaceAudio videoSrcDur audioSrcDur vh o
      = if trimmedAudioDur audioSrcDur o > actualVideoDur videoSrcDur o then
          ⟨[.vloop], trimmedAudioDur audioSrcDur o,
            some (audioStreamAfterTrim audioSrcDur o)⟩
        else
          ⟨[.vtrim 0 (trimmedAudioDur audioSrcDur o)],
            trimmedAudioDur audioSrcDur o,
            some (audioStreamAfterTrim audioSrcDur o)⟩ := by
    unfold replaceAudio
    rw [hcust, hprio]
    simp
  by_cases hgt : trimmedAudioDur audioSrcDur o > actualVideoDur videoSrcDur o
  · rw [if_pos hgt] at hcmd
    refine ⟨?_, fun _ => by rw [hcmd], fun hle => absurd hgt (not_lt.mpr hle)⟩
    unfold replaceAudioOutDur
    rw [hcmd]
    dsimp only
    have hne : trimmedAudioDur audioSrcDur o ≠ 0 := by
      rw [hvid] at hgt; linarith
    simp [vchainDur, containerDur, durMax, hne]
  · rw [if_neg hgt] at hcmd
    push_neg at hgt
    refine ⟨?_, fun hc => absurd hc (not_lt.mpr hgt), fun _ => by rw [hcmd]⟩
    unfold replaceAudioOutDur
    rw [hcmd]
    dsimp only
    have hvd : vchainDur videoSrcDur
        [VideoFilterOp.vtrim 0 (trimmedAudioDur audioSrcDur o)]
        = some (trimmedAudioDur audioSrcDur o) := by
      simp only [vchainDur, List.foldl_cons, List.foldl_nil]
      congr 1
      unfold trimLen
      rw [hvid] at hgt
      rw [min_eq_left hgt, min_eq_left (le_of_lt hv)]
      simp only [sub_zero]
      exact max_eq_right htnonneg
    rw [hvd]
    by_cases h0 : trimmedAudioDur audioSrcDur o = 0
    · rw [h0]
      simp only [containerDur, durMin, eq_self_iff_true, if_true,
        Option.some.injEq]
      exact min_eq_left hanonneg
    · simp only [containerDur, if_neg h0, durMax, Option.some.injEq]
      exact min_eq_left (le_max_left _ _)

/-- Witness for C3: video 10s, audio 4s, no trim: output is the audio's 4s
and the video chain trims to 4s. -/
theorem replace_audio_priority_tracks_audio_witness :
    replaceAudioOutDur 10 4 true
        ⟨none, none, some "audio", some "audio_priority", none, none, none,
          none⟩
      = some (trimmedAudioDur 4
          ⟨none, none, some "audio", some "audio_priority", none, none, none,
            none⟩)
    ∧ (trimmedAudioDur 4
          ⟨none, none, some "audio", some "audio_priority", none, none, none,
            none⟩
        ≤ actualVideoDur 10
            ⟨none, none, some "audio", some "audio_priority", none, none,
              none, none⟩ →
        (replaceAudio 10 4 true
            ⟨none, none, some "audio", some "audio_priority", none, none,
              none, none⟩).videoChain
          = [.vtrim 0 (trimmedAudioDur 4
              ⟨none, none, some "audio", some "audio_priority", none, none,
                none, none⟩)]) := by
  have h := replace_audio_priority_tracks_audio 10 4 true
    ⟨none, none, some "audio", some "audio_priority", none, none, none, none⟩
    rfl rfl (by norm_num) (by norm_num)
    (by norm_num [actualAudioDur])
  exact ⟨h.1, h.2.2⟩

/-- C9: with neither a (valid) custom placement window nor an audio/video
priority, the output duration is the minimum of the video duration and the
(possibly trimmed) replacement-audio duration, and the video chain is a
plain copy (no scaling, trimming or looping). -/
theorem replace_audio_default_min
    (videoSrcDur audioSrcDur : ℚ) (vh : Bool) (o : AudioOptions)
    (hplace : o.placement = none) (hprio : o.priority = none)
    (hv : 0 < videoSrcDur) (ha : 0 ≤ audioSrcDur)
    (haud : 0 ≤ actualAudioDur audioSrcDur o) :
    replaceAudioOutDur videoSrcDur audioSrcDur vh o
        = some (min (actualVideoDur videoSrcDur o)
            (trimmedAudioDur audioSrcDur o))
    ∧ (replaceAudio videoSrcDur audioSrcDur vh o).videoChain = [.copy] := by
  have hcust : o.isCustomB = false := isCustomB_false o (by rw [hplace]; simp)
  have hanonneg := audioStreamAfterTrim_nonneg audioSrcDur o ha
  have htnonneg := trimmedAudioDur_nonneg audioSrcDur o haud
  have hvid : actualVideoDur videoSrcDur o = videoSrcDur := by
    unfold actualVideoDur
    rw [if_neg (ne_of_gt hv)]
  have hcmd : replaceAudio videoSrcDur audioSrcDur vh o
      = ⟨[.copy],
          min (actualVideoDur videoSrcDur o) (trimmedAudioDur audioSrcDur o),
          some (audioStreamAfterTrim audioSrcDur o)⟩ := by
    unfold replaceAudio
    rw [hcust, hprio]
    simp
  refine ⟨?_, by rw [hcmd]⟩
  unfold replaceAudioOutDur
  rw [hcmd]
  dsimp only
  have hvchain : vchainDur videoSrcDur [VideoFilterOp.copy]
      = some videoSrcDur := by
    simp [vchainDur]
  rw [hvchain]
  by_cases h0 : min (actualVideoDur videoSrcDur o)
      (trimmedAudioDur audioSrcDur o) = 0
  · -- the minimum is zero: since the video is positive the trimmed audio
    -- duration is zero, so no trim window is active and the audio file
    -- itself has length zero, making `-shortest` also yield zero
    have htz : trimmedAudioDur audioSrcDur o = 0 := by
      rw [hvid] at h0
      rcases le_total videoSrcDur (trimmedAudioDur audioSrcDur o) with hle | hle
      · rw [min_eq_left hle] at h0; linarith
      · rw [min_eq_right hle] at h0; exact h0
    have hfalse : o.hasTrimB = false := by
      cases hb : o.hasTrimB
      · rfl
      · exfalso
        unfold trimmedAudioDur at htz
        rw [hb] at htz
        simp only [if_true] at htz
        unfold AudioOptions.hasTrimB at hb
        rcases he : o.trimEndVal with _ | e
        · rw [he] at hb; simp at hb
        · rw [he] at hb htz
          simp only [decide_eq_true_eq] at hb
          simp only [Option.getD_some] at htz
          linarith
    have hsrc : audioSrcDur = 0 := by
      unfold trimmedAudioDur at htz
      rw [hfalse] at htz
      simp only [Bool.false_eq_true, if_false] at htz
      unfold actualAudioDur at htz
      rcases hao : o.audioDuration with _ | a
      · rw [hao] at htz; exact htz
      · rw [hao] at htz
        dsimp only at htz
        by_cases haz : a = 0
        · rw [if_pos haz] at htz; exact htz
        · rw [if_neg haz] at htz; exact absurd htz haz
    have hsz : audioStreamAfterTrim audioSrcDur o = 0 := by
      unfold audioStreamAfterTrim
      rw [hfalse]
      simp [hsrc]
    rw [h0, hsz]
    simp only [containerDur, durMin, eq_self_iff_true, if_true,
      Option.some.injEq]
    exact min_eq_right (le_of_lt hv)
  · simp only [containerDur, if_neg h0, durMax, Option.some.injEq]
    refine min_eq_left (le_trans ?_ (le_max_left _ _))
    rw [hvid]
    exact min_le_left _ _

/-- Witness for C9: video 10s, audio 4s, no options: output is 4s and the
video chain is a copy. -/
theorem replace_audio_default_min_witness :
    replaceAudioOutDur 10 4 true
        ⟨none, none, none, none, none, none, none, none⟩
      = some (min (actualVideoDur 10
            ⟨none, none, none, none, none, none, none, none⟩)
          (trimmedAudioDur 4 ⟨none, none, none, none, none, none, none, none⟩))
    ∧ (replaceAudio 10 4 true
        ⟨none, none, none, none, none, none, none, none⟩).videoChain
      = [.copy] :=
  replace_audio_default_min 10 4 true
    ⟨none, none, none, none, none, none, none, none⟩ rfl rfl (by norm_num)
    (by norm_num) (by norm_num [actualAudioDur])

/-! ## Frame-rate extraction (`videoUtils.js`)

`getFrameRate` reads `r_frame_rate`, `avg_frame_rate` (both `num/den`
strings; a field that is missing or does not split into two parsed parts is
modelled as `none`, a parsed pair as `some (num, den)` with the positive-
denominator guard kept in the function), `nb_frames` and the container
duration.  JS `NaN`/string subtleties that end in the same branch are noted
inline. -/

/-- One probed stream with the fields `videoUtils.js` reads. -/
structure ProbeStream where
  codecType : String
  rFrameRate : Option (ℚ × ℚ)
  avgFrameRate : Option (ℚ × ℚ)
  nbFrames : Option ℚ
  width : Option ℤ
  height : Option ℤ
deriving Repr, DecidableEq

/-- Probed metadata: the stream list and `format.duration`. -/
structure ProbeMetadata where
  streams : List ProbeStream
  duration : Option ℚ
deriving Repr, DecidableEq

/-- JS `Math.round` (round half toward positive infinity). -/
def jsRound (x : ℚ) : ℤ := ⌊x + 1/2⌋

/-- `videoUtils.js` line 65:
`Math.max(1, Math.min(120, Math.round(fps * 100) / 100))`. -/
def round2clamp (x : ℚ) : ℚ := max 1 (min 120 ((jsRound (x * 100) : ℚ) / 100))

/-- `videoUtils.js` lines 31-66 (`getFrameRate`).  The JS guard
`(!fps || fps <= 0 || fps > 120)` is `fps ≤ 0 ∨ fps > 120` over ℚ.  A
zero `nb_frames` or a zero duration leaves the rate unchanged in both
models (in JS the division yields `Infinity`/`NaN`, rejected by the
`0 < calc ≤ 120` guard; here it yields `0`, equally rejected). -/
def getFrameRate (m : ProbeMetadata) : ℚ :=
  match m.streams.find? (fun s => s.codecType == "video") with
  | none => 30
  | some vs =>
      let fps1 :=
        match vs.rFrameRate with
        | some (n, d) => if d > 0 then n / d else 30
        | none => 30
      let fps2 :=
        if fps1 ≤ 0 ∨ fps1 > 120 then
          match vs.avgFrameRate with
          | some (n, d) =>
              if d > 0 then
                if 0 < n / d ∧ n / d ≤ 120 then n / d else fps1
              else fps1
          | none => fps1
        else fps1
      let fps3 :=
        if fps2 ≤ 0 ∨ fps2 > 120 then
          match vs.nbFrames, m.duration with
          | some nb, some dur =>
              if 0 < nb / dur ∧ nb / dur ≤ 120 then nb / dur else fps2
          | _, _ => fps2
        else fps2
      round2clamp fps3

/-- Properties returned by `getVideoProperties`. -/
structure VideoProps where
  width : ℤ
  height : ℤ
  fps : ℚ
deriving Repr, DecidableEq

/-- `videoUtils.js` lines 73-80 (`getVideoProperties`):
`videoStream?.width || 1920` and `videoStream?.height || 1080` (a zero
value is falsy). -/
def getVideoProperties (m : ProbeMetadata) : VideoProps :=
  match m.streams.find? (fun s => s.codecType == "video") with
  | none => ⟨1920, 1080, getFrameRate m⟩
  | some vs =>
      ⟨match vs.width with
        | some w => if w = 0 then 1920 else w
        | none => 1920,
       match vs.height with
        | some h => if h = 0 then 1080 else h
        | none => 1080,
       getFrameRate m⟩

/-- The clamped rounded rate is in `[1, 120]` and has exactly two decimal
places. -/
theorem round2clamp_bounds (x : ℚ) :
    1 ≤ round2clamp x ∧ round2clamp x ≤ 120
    ∧ ∃ j : ℤ, round2clamp x * 100 = (j : ℚ) := by
  unfold round2clamp
  refine ⟨le_max_left 1 _, max_le (by norm_num) (min_le_left _ _), ?_⟩
  refine ⟨max 100 (min 12000 (jsRound (x * 100))), ?_⟩
  rw [max_mul_of_nonneg _ _ (by norm_num : (0:ℚ) ≤ 100),
    min_mul_of_nonneg _ _ (by norm_num : (0:ℚ) ≤ 100)]
  rw [div_mul_cancel₀ _ (by norm_num : (100:ℚ) ≠ 0)]
  push_cast
  norm_num

/-- Rounding and clamping fix the default rate 30. -/
theorem round2clamp_thirty : round2clamp 30 = 30 := by
  unfold round2clamp jsRound
  have hfloor : ⌊(30 : ℚ) * 100 + 1/2⌋ = 3000 := by
    rw [Int.floor_eq_iff]
    norm_num
  rw [hfloor]
  norm_num

/-- C7 counterexample: a video stream with `r_frame_rate` missing and
`avg_frame_rate = 25/1` yields 30, not 25 — a missing (hence invalid) exact
rate keeps the valid default 30 and never consults the average-rate
fallback, contrary to the claimed fallback order. -/
theorem frame_rate_fallback_cex :
    getFrameRate
        ⟨[⟨"video", none, some (25, 1), none, some 1280, some 720⟩], some 10⟩
      = 30
    ∧ getFrameRate
        ⟨[⟨"video", none, some (25, 1), none, some 1280, some 720⟩], some 10⟩
      ≠ 25 := by
  have h : getFrameRate
      ⟨[⟨"video", none, some (25, 1), none, some 1280, some 720⟩], some 10⟩
      = round2clamp 30 := by
    unfold getFrameRate
    norm_num [List.find?]
  rw [h, round2clamp_thirty]
  norm_num

/-- C7 (amended): with no video stream the rate is 30 and the resolution
defaults to 1920×1080.  With a video stream, the parsed exact rate is
preferred when it lies in `(0, 120]`; the average-rate fallback is consulted
only when the exact rate parses (positive denominator) to a value outside
`(0, 120]` — a missing exact rate keeps the valid default 30 and consults no
fallback.  The result is always rounded to 2 decimals and clamped to
`[1, 120]`. -/
theorem frame_rate_policy (m : ProbeMetadata) :
    (m.streams.find? (fun s => s.codecType == "video") = none →
        getFrameRate m = 30 ∧ getVideoProperties m = ⟨1920, 1080, 30⟩)
    ∧ (∀ vs, m.streams.find? (fun s => s.codecType == "video") = some vs →
        (∀ n d, vs.rFrameRate = some (n, d) → 0 < d → 0 < n / d →
          n / d ≤ 120 → getFrameRate m = round2clamp (n / d))
        ∧ (vs.rFrameRate = none → getFrameRate m = 30)
        ∧ (∀ n d n2 d2, vs.rFrameRate = some (n, d) → 0 < d →
            (n / d ≤ 0 ∨ 120 < n / d) →
            vs.avgFrameRate = some (n2, d2) → 0 < d2 → 0 < n2 / d2 →
            n2 / d2 ≤ 120 → getFrameRate m = round2clamp (n2 / d2)))
    ∧ (1 ≤ getFrameRate m ∧ getFrameRate m ≤ 120
        ∧ ∃ j : ℤ, getFrameRate m * 100 = (j : ℚ)) := by
  refine ⟨?_, ?_, ?_⟩
  · intro hfind
    have h30 : getFrameRate m = 30 := by
      unfold getFrameRate
      rw [hfind]
    refine ⟨h30, ?_⟩
    unfold getVideoProperties
    rw [hfind, h30]
  · intro vs hfind
    refine ⟨?_, ?_, ?_⟩
    · intro n d hr hd h1 h2
      unfold getFrameRate
      rw [hfind]
      dsimp only
      rw [hr]
      dsimp only
      rw [if_pos hd]
      have hno : ¬(n / d ≤ 0 ∨ n / d > 120) := by push_neg; exact ⟨h1, h2⟩
      rw [if_neg hno, if_neg hno]
    · intro hr
      unfold getFrameRate
      rw [hfind]
      dsimp only
      rw [hr]
      dsimp only
      rw [if_neg (by norm_num), if_neg (by norm_num)]
      exact round2clamp_thirty
    · intro n d n2 d2 hr hd hbad ha hd2 h1 h2
      unfold getFrameRate
      rw [hfind]
      dsimp only
      rw [hr]
      dsimp only
      rw [if_pos hd]
      rw [if_pos hbad]
      rw [ha]
      dsimp only
      rw [if_pos hd2,
        if_pos (show 0 < n2 / d2 ∧ n2 / d2 ≤ 120 from ⟨h1, h2⟩)]
      rw [if_neg (by push_neg; exact ⟨h1, h2⟩)]
  · rcases hfind : m.streams.find? (fun s => s.codecType == "video")
      with _ | vs
    · have h30 : getFrameRate m = 30 := by
        unfold getFrameRate
        rw [hfind]
      rw [h30]
      refine ⟨by norm_num, by norm_num, ⟨3000, by norm_num⟩⟩
    · obtain ⟨x, hx⟩ : ∃ x, getFrameRate m = round2clamp x := by
        unfold getFrameRate
        rw [hfind]
        exact ⟨_, rfl⟩
      rw [hx]
      exact round2clamp_bounds x

/-- Witness for the amended C7 theorem: a stream with exact rate `30/1`
uses the exact rate; an empty stream list defaults to 30. -/
theorem frame_rate_policy_witness :
    getFrameRate
        ⟨[⟨"video", some (30, 1), none, none, some 1920, some 1080⟩], some 10⟩
      = round2clamp (30 / 1)
    ∧ getFrameRate ⟨[], some 10⟩ = 30 := by
  constructor
  · exact ((frame_rate_policy
        ⟨[⟨"video", some (30, 1), none, none, some 1920, some 1080⟩],
          some 10⟩).2.1 _ rfl).1 30 1 rfl (by norm_num) (by norm_num)
      (by norm_num)
  · exact ((frame_rate_policy ⟨[], some 10⟩).1 rfl).1

/-! ## File-picker state (`fileHandlers.js`)

The module keeps two mutable globals, `selectedVideoPath` and
`mainVideoPath`; `handlePickVideo` reassigns them only when the pick is not
flagged as an insert-video pick. -/

/-- The module-level mutable state of `fileHandlers.js` (lines 3-4). -/
structure PickerState where
  selectedVideoPath : Option String
  mainVideoPath : Option String
deriving Repr, DecidableEq

/-- The result of the open dialog. -/
structure DialogResult where
  canceled : Bool
  filePaths : List String
deriving Repr, DecidableEq

/-- New state plus the handler's return value (`null` on cancel). -/
structure PickOutcome where
  state : PickerState
  returned : Option String
deriving Repr, DecidableEq

/-- `fileHandlers.js` lines 9-28 (`handlePickVideo`): on cancel return
null; otherwise take `result.filePaths[0]` (an empty list is modelled by
the empty path), assign both globals only when `isInsertVideo` is false,
and return the chosen path either way. -/
def handlePickVideo (st : PickerState) (res : DialogResult)
    (isInsertVideo : Bool) : PickOutcome :=
  if res.canceled then ⟨st, none⟩
  else
    let videoPath := res.filePaths.headD ""
    if isInsertVideo then ⟨st, some videoPath⟩
    else ⟨⟨some videoPath, some videoPath⟩, some videoPath⟩

/-- `fileHandlers.js` lines 67-69 (`getMainVideoPath`):
`mainVideoPath || selectedVideoPath` (an empty-string path is falsy). -/
def getMainVideoPath (st : PickerState) : Option String :=
  match st.mainVideoPath with
  | some p => if p = "" then st.selectedVideoPath else some p
  | none => st.selectedVideoPath

/-- C10: a pick with the `isInsertVideo` flag returns the chosen path but
leaves the stored state — and hence `getMainVideoPath` — unchanged; a
non-cancelled pick without the flag reassigns the main selection to the
chosen path. -/
theorem insert_pick_preserves_main (st : PickerState) (res : DialogResult) :
    (handlePickVideo st res true).state = st
    ∧ getMainVideoPath (handlePickVideo st res true).state
        = getMainVideoPath st
    ∧ (res.canceled = false →
        (handlePickVideo st res true).returned
          = some (res.filePaths.headD ""))
    ∧ (res.canceled = false →
        getMainVideoPath (handlePickVideo st res false).state
          = some (res.filePaths.headD "")) := by
  refine ⟨?_, ?_, ?_, ?_⟩
  · unfold handlePickVideo
    split_ifs <;> first | rfl | simp_all
  · unfold handlePickVideo
    split_ifs <;> first | rfl | simp_all
  · intro hc
    unfold handlePickVideo
    rw [hc]
    simp
  · intro hc
    unfold handlePickVideo
    rw [hc]
    simp only [Bool.false_eq_true, if_false]
    unfold getMainVideoPath
    dsimp only
    split_ifs with h
    · rw [h]
    · rfl

/-- Witness for C10: with a stored main selection "old.mp4", an insert
pick of "new.mp4" leaves the selection at "old.mp4" and returns "new.mp4";
a plain pick reassigns it. -/
theorem insert_pick_preserves_main_witness :
    (handlePickVideo ⟨some "old.mp4", some "old.mp4"⟩ ⟨false, ["new.mp4"]⟩
        true).state = ⟨some "old.mp4", some "old.mp4"⟩
    ∧ getMainVideoPath
        (handlePickVideo ⟨some "old.mp4", some "old.mp4"⟩
          ⟨false, ["new.mp4"]⟩ true).state
      = getMainVideoPath ⟨some "old.mp4", some "old.mp4"⟩
    ∧ (handlePickVideo ⟨some "old.mp4", some "old.mp4"⟩ ⟨false, ["new.mp4"]⟩
        true).returned = some ((["new.mp4"] : List String).headD "")
    ∧ getMainVideoPath
        (handlePickVideo ⟨some "old.mp4", some "old.mp4"⟩
          ⟨false, ["new.mp4"]⟩ false).state
      = some ((["new.mp4"] : List String).headD "") := by
  have h := insert_pick_preserves_main ⟨some "old.mp4", some "old.mp4"⟩
    ⟨false, ["new.mp4"]⟩
  exact ⟨h.1, h.2.1, h.2.2.1 rfl, h.2.2.2 rfl⟩

end FrameNext
